import Mathlib

/-!
Shallow embedding of the xNVMe zoned-I/O example (`src/examples/zoned_io_async.c`)
and the fio I/O engine (`src/tools/fio-engine/xnvme_fioe.c`), together with
theorems settling the behavioural claims about zone-report normalization,
write-pointer reset, the asynchronous submit/poke/wait loops, the fio
engine's round-robin `getevents` scheduler, its `queue()` entry point and
the request-pool sizing.

External collaborators (the xNVMe backend calls `xnvme_cmd_read/write`,
`znd_cmd_append`, `xnvme_async_poke`, `xnvme_async_wait`,
`znd_report_from_dev`, `znd_cmd_mgmt_send`) are modelled as oracles: the
embedded control flow consumes their results from explicit result streams,
exactly at the program points where the C code calls them.
-/

namespace Xnvme

/-! ## errno values used by the C code -/

def cEBUSY : Int := 16
def cEAGAIN : Int := 11
def cEio : Int := 5

/-! ## Zone-report normalization (`xnvme_fioe_report_zones`)

`struct znd_descr` fields used by the transform: `zslba`, `zcap`, `wp`,
`zt` (zone type) and `zs` (zone state), the latter two being raw 8-bit
values reported by the device. -/

structure ZndDescr where
  zslba : Nat
  zcap : Nat
  wp : Nat
  zt : Nat
  zs : Nat
deriving DecidableEq, Repr

/-- Normalized zone condition, mirroring the `ZBD_ZONE_COND_*` values the
engine assigns in `xnvme_fioe_report_zones`. -/
inductive ZbdCond where
  | empty
  | impOpen
  | expOpen
  | closed
  | full
  | offline
deriving DecidableEq, Repr

/-- Normalized zone type, mirroring `ZBD_ZONE_TYPE_SWR` (the only type the
engine produces). -/
inductive ZbdType where
  | swr
deriving DecidableEq, Repr

structure ZbdZone where
  start : Nat
  len : Nat
  wp : Nat
  ztype : ZbdType
  cond : ZbdCond
deriving DecidableEq, Repr

/-- Modelled from the spec: the `ZND_STATE_*` and `ZND_TYPE_*` enum
constants live in `libznd.h`, which is not among the given sources; the
numeric values follow the NVMe ZNS zone-state/zone-type encoding. Only
their distinctness matters to the mapping switch in
`xnvme_fioe_report_zones`. -/
def ZND_STATE_EMPTY : Nat := 0x1
def ZND_STATE_IOPEN : Nat := 0x2
def ZND_STATE_EOPEN : Nat := 0x3
def ZND_STATE_CLOSED : Nat := 0x4
def ZND_STATE_RONLY : Nat := 0xD
def ZND_STATE_FULL : Nat := 0xE
def ZND_STATE_OFFLINE : Nat := 0xF
def ZND_TYPE_SEQWR : Nat := 0x2

/-- The `switch (descr->zs)` of `xnvme_fioe_report_zones` (lines 731-753):
the five specific states map to their counterparts, while `ZND_STATE_RONLY`,
`ZND_STATE_OFFLINE` and the `default:` label all fall through to
`ZBD_ZONE_COND_OFFLINE`. -/
def zbd_cond_of_zs (zs : Nat) : ZbdCond :=
  if zs = ZND_STATE_EMPTY then .empty
  else if zs = ZND_STATE_IOPEN then .impOpen
  else if zs = ZND_STATE_EOPEN then .expOpen
  else if zs = ZND_STATE_CLOSED then .closed
  else if zs = ZND_STATE_FULL then .full
  else .offline

/-- The `switch (descr->zt)` of `xnvme_fioe_report_zones` (lines 719-729):
`ZND_TYPE_SEQWR` maps to `ZBD_ZONE_TYPE_SWR`; every other type hits the
`default:` label which sets `err = -EIO`. -/
def zbd_type_of_zt (zt : Nat) : Option ZbdType :=
  if zt = ZND_TYPE_SEQWR then some .swr else none

/-- Transformation of one raw `znd_descr` into a `zbd_zone`
(`xnvme_fioe_report_zones`, loop body at lines 712-754): shift the LBA
fields by `ssw`, reject an unrecognized zone type with `-EIO`, normalize
the zone state. -/
def transform_descr (ssw : Nat) (d : ZndDescr) : Option ZbdZone :=
  match zbd_type_of_zt d.zt with
  | none => none
  | some t =>
      some { start := d.zslba <<< ssw, len := d.zcap <<< ssw,
             wp := d.wp <<< ssw, ztype := t, cond := zbd_cond_of_zs d.zs }

/-- The transform loop over all report entries; stops with `err = -EIO` at
the first entry whose zone type is invalid. -/
def transform_all (ssw : Nat) : List ZndDescr → Except Int (List ZbdZone)
  | [] => .ok []
  | d :: ds =>
      match transform_descr ssw d with
      | none => .error (-cEio)
      | some z =>
          match transform_all ssw ds with
          | .error e => .error e
          | .ok zs => .ok (z :: zs)

/-- Device geometry fields consulted by `xnvme_fioe_report_zones` and
`xnvme_fioe_reset_wp`. -/
structure Geo where
  tbytes : Nat
  nsect : Nat
deriving Repr

/-- `slba = ((offset >> ssw) / geo->nsect) * geo->nsect` (line 693). -/
def report_slba (geo : Geo) (ssw offset : Nat) : Nat :=
  ((offset >>> ssw) / geo.nsect) * geo.nsect

/-- `xnvme_fioe_report_zones` (lines 667-766), with the device's zone
report supplied as an oracle `report` taking the requested `(slba, n)`.
Returns the C `int` result (`err ? err : (int)nr_zones`) paired with the
list of transformed `zbd_zone` entries written to the output buffer (empty
when the transform was not reached or aborted).
The checks appear in source order: report failure (`err = -errno`),
`rprt->nentries != nr_zones` (`err = 1`), `offset > geo->tbytes`
(exit with `err = 0`, no transform), then the transform loop. -/
def xnvme_fioe_report_zones (geo : Geo) (ssw offset nr_zones : Nat)
    (report : Nat → Nat → Except Int (List ZndDescr)) : Int × List ZbdZone :=
  match report (report_slba geo ssw offset) nr_zones with
  | .error e => (e, [])
  | .ok entries =>
      if entries.length ≠ nr_zones then (1, [])
      else if offset > geo.tbytes then ((nr_zones : Int), [])
      else
        match transform_all ssw entries with
        | .error e => (e, [])
        | .ok zs => ((nr_zones : Int), zs)

/-- Claim-side definition, following the spec's words for the state
mapping table: "Empty→Empty, ImplicitlyOpen→ImplicitOpen,
ExplicitlyOpen→ExplicitOpen, Closed→Closed, Full→Full, ReadOnly→Offline,
Offline→Offline, anything else→error". -/
def spec_state_map (zs : Nat) : Option ZbdCond :=
  if zs = ZND_STATE_EMPTY then some .empty
  else if zs = ZND_STATE_IOPEN then some .impOpen
  else if zs = ZND_STATE_EOPEN then some .expOpen
  else if zs = ZND_STATE_CLOSED then some .closed
  else if zs = ZND_STATE_FULL then some .full
  else if zs = ZND_STATE_RONLY then some .offline
  else if zs = ZND_STATE_OFFLINE then some .offline
  else none

/-! ## Write-pointer reset (`xnvme_fioe_reset_wp`) -/

/-- The ascending sequence of zone-start LBAs `z, z+nsect, ...` of a given
length; the zones the reset loop visits when no reset fails. -/
def zseq (nsect : Nat) : Nat → Nat → List Nat
  | 0, _ => []
  | c + 1, z => z :: zseq nsect c (z + nsect)

/-- `first = ((offset >> ssw) / nsect) * nsect` (line 785). -/
def reset_first (ssw nsect offset : Nat) : Nat :=
  ((offset >>> ssw) / nsect) * nsect

/-- `last = (((offset + length) >> ssw) / nsect) * nsect` (line 786). -/
def reset_last (ssw nsect offset length : Nat) : Nat :=
  (((offset + length) >>> ssw) / nsect) * nsect

/-- The `for (zslba = first; zslba <= last; zslba += nsect)` loop of
`xnvme_fioe_reset_wp` (lines 787-796), unrolled over its iteration count.
`mgmt z` is the combined outcome of `znd_cmd_mgmt_send` and the completion
status for the zone starting at `z`: `0` on success, the nonzero value the
C code leaves in `err` otherwise (`err` when the call itself failed,
`-EIO` when only the completion status was bad). Returns the final `err`
and the list of zones for which a reset command was issued. -/
def reset_loop (nsect : Nat) (mgmt : Nat → Int) : Nat → Nat → Int × List Nat
  | 0, _ => (0, [])
  | c + 1, z =>
      if mgmt z ≠ 0 then (mgmt z, [z])
      else
        ((reset_loop nsect mgmt c (z + nsect)).1,
         z :: (reset_loop nsect mgmt c (z + nsect)).2)

/-- `xnvme_fioe_reset_wp` (lines 768-800): computes `first` and `last` and
runs the reset loop, which executes `(last - first) / nsect + 1` times
(both bounds are multiples of `nsect`). -/
def xnvme_fioe_reset_wp (ssw nsect offset length : Nat)
    (mgmt : Nat → Int) : Int × List Nat :=
  let first := reset_first ssw nsect offset
  let last := reset_last ssw nsect offset length
  reset_loop nsect mgmt ((last - first) / nsect + 1) first

/-- Claim-side definition, following the claim's words: zone with start
LBA `z` (covering bytes `[z <<< ssw, (z + nsect) <<< ssw)`) overlaps the
half-open byte range `[offset, offset + length)`. -/
def zone_overlaps_ho (ssw nsect offset length z : Nat) : Prop :=
  z <<< ssw < offset + length ∧ offset < (z + nsect) <<< ssw

instance (ssw nsect offset length z : Nat) :
    Decidable (zone_overlaps_ho ssw nsect offset length z) := by
  unfold zone_overlaps_ho; infer_instance

/-! ## Request-pool sizing (C9)

The three example drive loops (`sub_async_read` lines 89-98,
`sub_async_write` lines 236-245, `sub_async_append` lines 379-388) and the
fio engine's `_dev_open` (lines 286-293). -/

def DEFAULT_QD : Nat := 8

/-- `qd = cli->args.qdepth ? cli->args.qdepth : DEFAULT_QD` (line 41 and
its twins at 188 and 331). -/
def example_qd (qdepth : Nat) : Nat :=
  if qdepth ≠ 0 then qdepth else DEFAULT_QD

/-- Depth passed to `xnvme_async_init(dev, &ctx, qd, 0)` in the examples. -/
def example_async_init_depth (qdepth : Nat) : Nat := example_qd qdepth

/-- Count passed to `xnvme_req_pool_alloc(&reqs, qd + 1)` in the examples. -/
def example_req_pool_count (qdepth : Nat) : Nat := example_qd qdepth + 1

/-- Depth passed to `xnvme_async_init(fwrap->dev, &(fwrap->ctx),
td->o.iodepth, flags)` in `_dev_open`. -/
def fioe_async_init_depth (iodepth : Nat) : Nat := iodepth

/-- Count passed to `xnvme_req_pool_alloc(&fwrap->reqs, td->o.iodepth + 1)`
in `_dev_open`. -/
def fioe_req_pool_count (iodepth : Nat) : Nat := iodepth + 1

/-! ## `xnvme_fioe_queue` (C10)

Request handles are identified by `Nat` names; the device's free list is
the `SLIST` of its pool, head first. The caller's I/O unit carries a
direction; the submission outcome of `xnvme_cmd_read`/`xnvme_cmd_write` is
the oracle `subRes`. The engine never registers with `FIO_SYNCIO`, so the
sync-I/O assert branch (lines 506-510), which precedes the list removal,
is not part of the modelled path. -/

inductive FioQStatus where
  | queued
  | busy
  | completed
deriving DecidableEq, Repr

inductive DDir where
  | read
  | write
  | other
deriving DecidableEq, Repr

/-- `xnvme_fioe_queue` (lines 487-554) from the point where the request is
taken off the free list (`SLIST_FIRST` + `SLIST_REMOVE_HEAD`, lines
512-513, so the list on entry is `req :: rest`): dispatch on the data
direction (`default:` sets `err = -1`), then on `err`: `0` returns
`FIO_Q_QUEUED` keeping the handle in flight; `-EBUSY`/`-EAGAIN` reinsert
the handle at the head and return `FIO_Q_BUSY`; anything else reinserts
the handle at the head, sets `io_u->error = abs(err)` and returns
`FIO_Q_COMPLETED`. Result: status, free list on return, `io_u->error`. -/
def xnvme_fioe_queue (req : Nat) (rest : List Nat) (ddir : DDir)
    (subRes : Int) : FioQStatus × List Nat × Option Int :=
  let err : Int :=
    match ddir with
    | .read => subRes
    | .write => subRes
    | .other => -1
  if err = 0 then (.queued, rest, none)
  else if err = -cEBUSY ∨ err = -cEAGAIN then (.busy, req :: rest, none)
  else (.completed, req :: rest, some (Int.natAbs err))

/-! ## Single-device drive loops (`zoned_io_async.c`)

The three subcommands share shape: a `for (sect = 0; sect < zone.zcap &&
!cb_args.ecount;)` loop that takes a request from the pool, submits, on
`-EBUSY`/`-EAGAIN` pokes the context and retries the same submission
(`goto submit`), on another error exits immediately, and on success moves
to the next sector; after the loop a final `xnvme_async_wait` drains all
in-flight requests and `cb_args.ecount != 0` turns into a `-EIO` result.
`sub_async_write` additionally waits for completion after every
successful submission ("Wait for completion to avoid racing zone.wp",
line 280); `sub_async_read` and `sub_async_append` do not.

Oracles: `subRes a` is the return of the a-th submission call
(`xnvme_cmd_read` / `xnvme_cmd_write` / `znd_cmd_append`); `pokeDrain k`
is the number of completions carrying an error status drained by the k-th
`xnvme_async_poke` (each bumps `cb_args.ecount` in `cb_pool`);
`waitDrain w` likewise for the w-th `xnvme_async_wait`, which itself is
modelled as succeeding. Fuel bounds the number of loop steps (the
busy-retry loop has no intrinsic bound); `none` means the fuel ran out. -/

structure LoopEnv where
  subRes : Nat → Int
  pokeDrain : Nat → Nat
  waitDrain : Nat → Nat

inductive LoopEv where
  | sub (sect : Nat)
  | poke
  | waitAll
deriving DecidableEq, Repr

/-- The loop of `sub_async_read` (lines 109-142), from loop entry at state
`(sect, ecount)` with `a` submissions attempted and `k` pokes issued so
far. Returns `(return value, final ecount, event trace)`. -/
def readStep (env : LoopEnv) (zcap : Nat) :
    Nat → Nat → Nat → Nat → Nat → Option (Int × Nat × List LoopEv)
  | 0, _, _, _, _ => none
  | fuel + 1, sect, ecount, a, k =>
    if sect < zcap ∧ ecount = 0 then
      if env.subRes a = 0 then
        (readStep env zcap fuel (sect + 1) ecount (a + 1) k).map
          (fun o => (o.1, o.2.1, .sub sect :: o.2.2))
      else if env.subRes a = -cEBUSY ∨ env.subRes a = -cEAGAIN then
        (readStep env zcap fuel sect (ecount + env.pokeDrain k) (a + 1) (k + 1)).map
          (fun o => (o.1, o.2.1, .sub sect :: .poke :: o.2.2))
      else some (if env.subRes a < 0 then env.subRes a else 0, ecount, [.sub sect])
    else
      some (if ecount + env.waitDrain 0 ≠ 0 then -cEio else 0,
            ecount + env.waitDrain 0, [.waitAll])

/-- The loop of `sub_async_write` (lines 255-296): same as the read loop
except that every successful submission is followed by
`xnvme_async_wait` before the next iteration (`next:` label, lines
279-288); `w` counts the waits issued so far. -/
def writeStep (env : LoopEnv) (zcap : Nat) :
    Nat → Nat → Nat → Nat → Nat → Nat → Option (Int × Nat × List LoopEv)
  | 0, _, _, _, _, _ => none
  | fuel + 1, sect, ecount, a, k, w =>
    if sect < zcap ∧ ecount = 0 then
      if env.subRes a = 0 then
        (writeStep env zcap fuel (sect + 1) (ecount + env.waitDrain w) (a + 1) k (w + 1)).map
          (fun o => (o.1, o.2.1, .sub sect :: .waitAll :: o.2.2))
      else if env.subRes a = -cEBUSY ∨ env.subRes a = -cEAGAIN then
        (writeStep env zcap fuel sect (ecount + env.pokeDrain k) (a + 1) (k + 1) w).map
          (fun o => (o.1, o.2.1, .sub sect :: .poke :: o.2.2))
      else some (if env.subRes a < 0 then env.subRes a else 0, ecount, [.sub sect])
    else
      some (if ecount + env.waitDrain w ≠ 0 then -cEio else 0,
            ecount + env.waitDrain w, [.waitAll])

/-- The loop of `sub_async_append` (lines 399-432): identical control
structure to the read loop — the `next:` label (line 423) only advances
`sect` and the payload pointer, with no in-loop wait. -/
def appendStep (env : LoopEnv) (zcap : Nat) :
    Nat → Nat → Nat → Nat → Nat → Option (Int × Nat × List LoopEv)
  | 0, _, _, _, _ => none
  | fuel + 1, sect, ecount, a, k =>
    if sect < zcap ∧ ecount = 0 then
      if env.subRes a = 0 then
        (appendStep env zcap fuel (sect + 1) ecount (a + 1) k).map
          (fun o => (o.1, o.2.1, .sub sect :: o.2.2))
      else if env.subRes a = -cEBUSY ∨ env.subRes a = -cEAGAIN then
        (appendStep env zcap fuel sect (ecount + env.pokeDrain k) (a + 1) (k + 1)).map
          (fun o => (o.1, o.2.1, .sub sect :: .poke :: o.2.2))
      else some (if env.subRes a < 0 then env.subRes a else 0, ecount, [.sub sect])
    else
      some (if ecount + env.waitDrain 0 ≠ 0 then -cEio else 0,
            ecount + env.waitDrain 0, [.waitAll])

def sub_async_read_run (env : LoopEnv) (zcap fuel : Nat) :
    Option (Int × Nat × List LoopEv) :=
  readStep env zcap fuel 0 0 0 0

def sub_async_write_run (env : LoopEnv) (zcap fuel : Nat) :
    Option (Int × Nat × List LoopEv) :=
  writeStep env zcap fuel 0 0 0 0 0

def sub_async_append_run (env : LoopEnv) (zcap fuel : Nat) :
    Option (Int × Nat × List LoopEv) :=
  appendStep env zcap fuel 0 0 0 0

/-- Environment in which every submission succeeds and no completion
carries an error. -/
def okEnv : LoopEnv where
  subRes := fun _ => 0
  pokeDrain := fun _ => 0
  waitDrain := fun _ => 0

/-- Environment whose very first submission attempt reports `-EBUSY` and
everything afterwards succeeds. -/
def busyOnceEnv : LoopEnv where
  subRes := fun a => if a = 0 then -cEBUSY else 0
  pokeDrain := fun _ => 0
  waitDrain := fun _ => 0

/-- Trace of a run that submits `r` sectors starting at `s` back-to-back
and waits once at the end (the read/append shape). -/
def happyPipelined : Nat → Nat → List LoopEv
  | 0, _ => [.waitAll]
  | r + 1, s => .sub s :: happyPipelined r (s + 1)

/-- Trace of a run that waits after each of `r` submissions starting at
`s`, plus the final wait (the write shape). -/
def happyStopAndWait : Nat → Nat → List LoopEv
  | 0, _ => [.waitAll]
  | r + 1, s => .sub s :: .waitAll :: happyStopAndWait r (s + 1)

/-- `wbAux pending tr`: scans a trace; `pending` records that a submission
has happened with no wait since. A second submission while one is pending
falsifies the property. -/
def wbAux : Bool → List LoopEv → Bool
  | _, [] => true
  | pending, .sub _ :: rest => if pending then false else wbAux true rest
  | _, .waitAll :: rest => wbAux false rest
  | pending, .poke :: rest => wbAux pending rest

/-- A wait-for-completion separates every pair of consecutive submissions
in the trace (so at most one command is outstanding at any time). -/
def waitsBetweenSubs (tr : List LoopEv) : Bool := wbAux false tr

/-! ## `xnvme_fioe_getevents` (lines 423-485)

The poll loop over the per-device contexts. `xd->prev`/`xd->cur` index the
flexible `files[]` array of `nfiles = xd->nallocated` devices.
`oracle j` is the outcome of the j-th `xnvme_async_poke` call of this
invocation: `ok n` (n completions drained into `xd->iocq`, `xd->completed
+= n`) or `busy` (`-EBUSY`/`-EAGAIN`, nothing drained, `usleep(1)`
backoff).

The C control flow being mirrored:
  - entry (lines 436-439): when `xd->prev != -1 && ++xd->prev < nfiles`
    the scan starts at `files[prev + 1]`, otherwise `fwrap` stays `NULL`;
  - `xd->completed = 0` (line 441);
  - outer `for (;;)` (line 442): when `fwrap == NULL || xd->cur ==
    nfiles`, restart the revolution at `files[0]`;
  - inner `while (fwrap != NULL && xd->cur < nfiles && err >= 0)`
    (line 448): poke the current device; after every poke — also a busy
    one — check `xd->completed >= min` and if so record `xd->prev =
    xd->cur` and return; otherwise advance `xd->cur`. A busy poke leaves
    `err < 0`, which terminates the inner while; `err` is only ever
    re-assigned by the next poke inside that same while, so once negative
    it stays negative.

Fuel bounds the number of outer-loop revolutions; `none` means the fuel
ran out without the function returning. On return the result is
`(completed, new prev, polled)` where `polled` lists the device indices
poked, in order. -/

inductive PokeRes where
  | ok (n : Nat)
  | busy
deriving DecidableEq, Repr

structure GEState where
  cur : Nat
  completed : Nat
  k : Nat
  errNeg : Bool
deriving DecidableEq, Repr

inductive GEInnerRes where
  | ret (completed prevOut : Nat) (polled : List Nat)
  | fall (st : GEState) (polled : List Nat)
deriving DecidableEq, Repr

/-- The devices poked by an inner-while pass, whichever way it ended. -/
def polledOf : GEInnerRes → List Nat
  | .ret _ _ tr => tr
  | .fall _ tr => tr

/-- One pass of the inner `while`; `gas` is `nfiles - st.cur`, the number
of devices left in the current revolution. -/
def geInner (nfiles min : Nat) (oracle : Nat → PokeRes) :
    Nat → GEState → GEInnerRes
  | 0, st => .fall st []
  | gas + 1, st =>
    if st.errNeg then .fall st []
    else
      match oracle st.k with
      | .busy =>
          if st.completed ≥ min then .ret st.completed st.cur [st.cur]
          else
            .fall { cur := st.cur + 1, completed := st.completed,
                    k := st.k + 1, errNeg := true } [st.cur]
      | .ok n =>
          if st.completed + n ≥ min then .ret (st.completed + n) st.cur [st.cur]
          else
            match geInner nfiles min oracle gas
                { cur := st.cur + 1, completed := st.completed + n,
                  k := st.k + 1, errNeg := false } with
            | .ret c' p tr => .ret c' p (st.cur :: tr)
            | .fall st' tr => .fall st' (st.cur :: tr)

/-- The revolution restart at the top of the outer `for (;;)` (lines
443-446): `if (fwrap == NULL || xd->cur == nfiles) { fwrap = &xd->files[0];
xd->cur = 0; }`. -/
def geReset (nfiles : Nat) (fnull : Bool) (st : GEState) : GEState :=
  if fnull || st.cur == nfiles then { st with cur := 0 } else st

/-- The outer `for (;;)`: restart the revolution at device 0 when needed,
run the inner while, and keep going until a return happens. `fnull` marks
that `fwrap` is still `NULL` (only possibly true on the first
iteration). -/
def geOuter (nfiles min : Nat) (oracle : Nat → PokeRes) :
    Nat → Bool → GEState → Option (Nat × Nat × List Nat)
  | 0, _, _ => none
  | fuel + 1, fnull, st =>
    match geInner nfiles min oracle (nfiles - (geReset nfiles fnull st).cur)
        (geReset nfiles fnull st) with
    | .ret c p tr => some (c, p, tr)
    | .fall st'' tr =>
        (geOuter nfiles min oracle fuel false st'').map
          (fun o => (o.1, o.2.1, tr ++ o.2.2))

/-- `xnvme_fioe_getevents`, with `max` irrelevant to the modelled control
flow (it only caps how much a single poke may drain, which the oracle
already decides). `prev` is the `xd->prev` carried over from the previous
invocation (`-1` initially). -/
def xnvme_fioe_getevents (nfiles min : Nat) (oracle : Nat → PokeRes)
    (prev : Int) (fuel : Nat) : Option (Nat × Nat × List Nat) :=
  if prev ≠ -1 ∧ prev + 1 < nfiles then
    geOuter nfiles min oracle fuel false
      { cur := (prev + 1).toNat, completed := 0, k := 0, errNeg := false }
  else
    geOuter nfiles min oracle fuel true
      { cur := 0, completed := 0, k := 0, errNeg := false }

/-! ## Theorems -/

/-- C9: every context initialized with queue depth `qd` has its request
pool allocated in one batch with exactly `qd + 1` request handles — in the
example drive loops (`xnvme_async_init(dev, &ctx, qd, 0)` followed by
`xnvme_req_pool_alloc(&reqs, qd + 1)`) and in the fio engine's `_dev_open`
(`xnvme_async_init(..., td->o.iodepth, flags)` followed by
`xnvme_req_pool_alloc(&fwrap->reqs, td->o.iodepth + 1)`). -/
theorem c9_pool_sized_depth_plus_one (qdepth iodepth : Nat) :
    example_req_pool_count qdepth = example_async_init_depth qdepth + 1 ∧
    fioe_req_pool_count iodepth = fioe_async_init_depth iodepth + 1 :=
  ⟨rfl, rfl⟩

/-- C10: whenever `xnvme_fioe_queue` returns anything other than
`FIO_Q_QUEUED`, the request handle removed from the head of the device's
free list at the start of the call has been reinserted at the head, so the
free list on return is exactly the list on entry. -/
theorem c10_failed_queue_restores_free_list (req : Nat) (rest : List Nat)
    (ddir : DDir) (subRes : Int) (st : FioQStatus) (l : List Nat)
    (e : Option Int)
    (hrun : xnvme_fioe_queue req rest ddir subRes = (st, l, e))
    (hst : st ≠ FioQStatus.queued) :
    l = req :: rest := by
  cases ddir <;>
    simp only [xnvme_fioe_queue] at hrun <;>
    split at hrun <;>
    first
      | (exact absurd (congrArg Prod.fst hrun).symm hst)
      | (split at hrun <;> simp_all)

theorem c10_witness :
    xnvme_fioe_queue 7 [1, 2] DDir.read (-16) =
      (FioQStatus.busy, [7, 1, 2], none) ∧
    FioQStatus.busy ≠ FioQStatus.queued ∧
    ([7, 1, 2] : List Nat) = 7 :: [1, 2] :=
  ⟨by rfl, by decide,
    c10_failed_queue_restores_free_list 7 [1, 2] DDir.read (-16)
      FioQStatus.busy [7, 1, 2] none (by rfl) (by decide)⟩

/-- C1 counterexample: the raw zone state `0` is outside the seven defined
states — the spec-side mapping table rejects it — yet the report transform
accepts the entry and silently normalizes its state to Offline (the
`default:` label of the state switch falls through to
`ZBD_ZONE_COND_OFFLINE` instead of producing an error). -/
theorem c1_counterexample :
    spec_state_map 0 = none ∧
    transform_descr 0 ⟨0, 8, 0, ZND_TYPE_SEQWR, 0⟩ =
      some ⟨0, 8, 0, ZbdType.swr, ZbdCond.offline⟩ :=
  ⟨rfl, rfl⟩

/-- C1 (amended): the state switch maps Empty→Empty,
ImplicitlyOpen→ImplicitOpen, ExplicitlyOpen→ExplicitOpen, Closed→Closed,
Full→Full, ReadOnly→Offline, Offline→Offline, and any raw state value
outside these seven is also silently mapped to Offline rather than
rejected; unknown zone *types*, by contrast, are rejected with an error. -/
theorem c1_state_mapping (zs zt : Nat)
    (hs : zs ∉ [ZND_STATE_EMPTY, ZND_STATE_IOPEN, ZND_STATE_EOPEN,
                ZND_STATE_CLOSED, ZND_STATE_FULL, ZND_STATE_RONLY,
                ZND_STATE_OFFLINE])
    (ht : zt ≠ ZND_TYPE_SEQWR) :
    zbd_cond_of_zs ZND_STATE_EMPTY = ZbdCond.empty ∧
    zbd_cond_of_zs ZND_STATE_IOPEN = ZbdCond.impOpen ∧
    zbd_cond_of_zs ZND_STATE_EOPEN = ZbdCond.expOpen ∧
    zbd_cond_of_zs ZND_STATE_CLOSED = ZbdCond.closed ∧
    zbd_cond_of_zs ZND_STATE_FULL = ZbdCond.full ∧
    zbd_cond_of_zs ZND_STATE_RONLY = ZbdCond.offline ∧
    zbd_cond_of_zs ZND_STATE_OFFLINE = ZbdCond.offline ∧
    zbd_cond_of_zs zs = ZbdCond.offline ∧
    zbd_type_of_zt zt = none := by
  simp only [List.mem_cons, List.not_mem_nil, or_false, not_or] at hs
  obtain ⟨h1, h2, h3, h4, h5, _, _⟩ := hs
  refine ⟨rfl, rfl, rfl, rfl, rfl, rfl, rfl, ?_, ?_⟩
  · simp [zbd_cond_of_zs, h1, h2, h3, h4, h5]
  · simp [zbd_type_of_zt, ht]

theorem c1_state_mapping_witness :
    (0 : Nat) ∉ [ZND_STATE_EMPTY, ZND_STATE_IOPEN, ZND_STATE_EOPEN,
                 ZND_STATE_CLOSED, ZND_STATE_FULL, ZND_STATE_RONLY,
                 ZND_STATE_OFFLINE] ∧
    (0 : Nat) ≠ ZND_TYPE_SEQWR ∧
    zbd_cond_of_zs 0 = ZbdCond.offline ∧
    zbd_type_of_zt 0 = none :=
  ⟨by decide, by decide, (c1_state_mapping 0 0 (by decide) (by decide)).2.2.2.2.2.2.2⟩

/-- C8: `report_zones` validates that the report's entry count equals the
requested `nr_zones`: on a mismatch it takes the error path (`err = 1`)
without transforming any entry; with a matching count (and the offset in
bounds and the transform succeeding) it writes the normalized descriptors
and returns `nr_zones`. -/
theorem c8_report_count_validated (geo : Geo) (ssw offset nr_zones : Nat)
    (report : Nat → Nat → Except Int (List ZndDescr))
    (entries : List ZndDescr)
    (hrep : report (report_slba geo ssw offset) nr_zones = .ok entries) :
    (entries.length ≠ nr_zones →
       xnvme_fioe_report_zones geo ssw offset nr_zones report = (1, [])) ∧
    (entries.length = nr_zones → offset ≤ geo.tbytes →
       ∀ zs, transform_all ssw entries = .ok zs →
         xnvme_fioe_report_zones geo ssw offset nr_zones report =
           ((nr_zones : Int), zs)) := by
  constructor
  · intro h
    simp [xnvme_fioe_report_zones, hrep, h]
  · intro h hofs zs htr
    simp [xnvme_fioe_report_zones, hrep, h, htr, Nat.not_lt.mpr hofs]

theorem c8_witness :
    (fun _ _ => Except.ok (ε := Int) [(⟨0, 8, 0, ZND_TYPE_SEQWR, ZND_STATE_EMPTY⟩ : ZndDescr)])
        (report_slba ⟨4096, 8⟩ 9 0) 2 = .ok [⟨0, 8, 0, ZND_TYPE_SEQWR, ZND_STATE_EMPTY⟩] ∧
    ([(⟨0, 8, 0, ZND_TYPE_SEQWR, ZND_STATE_EMPTY⟩ : ZndDescr)].length ≠ 2) ∧
    xnvme_fioe_report_zones ⟨4096, 8⟩ 9 0 2
      (fun _ _ => Except.ok [⟨0, 8, 0, ZND_TYPE_SEQWR, ZND_STATE_EMPTY⟩]) = (1, []) :=
  ⟨rfl, by decide,
    (c8_report_count_validated ⟨4096, 8⟩ 9 0 2
      (fun _ _ => Except.ok [⟨0, 8, 0, ZND_TYPE_SEQWR, ZND_STATE_EMPTY⟩])
      [⟨0, 8, 0, ZND_TYPE_SEQWR, ZND_STATE_EMPTY⟩] rfl).1 (by decide)⟩

/-! ### Drive-loop lemmas -/

theorem readStep_ok_run (r : Nat) : ∀ (s a : Nat),
    readStep okEnv (s + r) (r + 1) s 0 a 0 = some (0, 0, happyPipelined r s) := by
  induction r with
  | zero =>
      intro s a
      simp [readStep, happyPipelined, okEnv]
  | succ r ih =>
      intro s a
      have hlt : s < s + (r + 1) := by omega
      have heq : s + (r + 1) = (s + 1) + r := by omega
      rw [readStep, if_pos (⟨hlt, rfl⟩ : s < s + (r + 1) ∧ (0 : Nat) = 0),
         if_pos (show okEnv.subRes a = 0 from rfl), heq, ih (s + 1) (a + 1)]
      simp [happyPipelined]

theorem appendStep_ok_run (r : Nat) : ∀ (s a : Nat),
    appendStep okEnv (s + r) (r + 1) s 0 a 0 = some (0, 0, happyPipelined r s) := by
  induction r with
  | zero =>
      intro s a
      simp [appendStep, happyPipelined, okEnv]
  | succ r ih =>
      intro s a
      have hlt : s < s + (r + 1) := by omega
      have heq : s + (r + 1) = (s + 1) + r := by omega
      rw [appendStep, if_pos (⟨hlt, rfl⟩ : s < s + (r + 1) ∧ (0 : Nat) = 0),
         if_pos (show okEnv.subRes a = 0 from rfl), heq, ih (s + 1) (a + 1)]
      simp [happyPipelined]

theorem writeStep_ok_run (r : Nat) : ∀ (s a w : Nat),
    writeStep okEnv (s + r) (r + 1) s 0 a 0 w = some (0, 0, happyStopAndWait r s) := by
  induction r with
  | zero =>
      intro s a w
      simp [writeStep, happyStopAndWait, okEnv]
  | succ r ih =>
      intro s a w
      have hlt : s < s + (r + 1) := by omega
      have heq : s + (r + 1) = (s + 1) + r := by omega
      rw [writeStep, if_pos (⟨hlt, rfl⟩ : s < s + (r + 1) ∧ (0 : Nat) = 0),
         if_pos (show okEnv.subRes a = 0 from rfl)]
      have hw : (0 : Nat) + okEnv.waitDrain w = 0 := rfl
      rw [hw, heq, ih (s + 1) (a + 1) (w + 1)]
      simp [happyStopAndWait]

theorem wbAux_stopAndWait (r : Nat) : ∀ s : Nat,
    wbAux false (happyStopAndWait r s) = true := by
  induction r with
  | zero => intro s; rfl
  | succ r ih => intro s; simpa [happyStopAndWait, wbAux] using ih (s + 1)

/-- C2 counterexample: with a two-sector zone and every submission and
completion succeeding, the append loop submits sector 1 immediately after
sector 0 with no wait in between — the append loop, unlike the write
loop, does not wait for each command's completion before submitting the
next. -/
theorem c2_counterexample :
    sub_async_append_run okEnv 2 3 =
      some (0, 0, [LoopEv.sub 0, LoopEv.sub 1, LoopEv.waitAll]) ∧
    waitsBetweenSubs [LoopEv.sub 0, LoopEv.sub 1, LoopEv.waitAll] = false := by
  constructor <;> rfl

/-- C2 (amended): in the single-device drive loop, for every write command
the loop waits for that command's completion before submitting the next
(at most one write outstanding at any time); append commands are not so
restricted — the append loop, like the read loop, submits back-to-back
and waits only once after the loop, pipelining up to queue depth. -/
theorem c2_write_waits_append_pipelines (zcap : Nat) (h : 2 ≤ zcap) :
    sub_async_write_run okEnv zcap (zcap + 1) =
      some (0, 0, happyStopAndWait zcap 0) ∧
    waitsBetweenSubs (happyStopAndWait zcap 0) = true ∧
    sub_async_read_run okEnv zcap (zcap + 1) =
      some (0, 0, happyPipelined zcap 0) ∧
    sub_async_append_run okEnv zcap (zcap + 1) =
      some (0, 0, happyPipelined zcap 0) ∧
    waitsBetweenSubs (happyPipelined zcap 0) = false := by
  obtain ⟨r, rfl⟩ : ∃ r, zcap = r + 2 := ⟨zcap - 2, by omega⟩
  refine ⟨?_, wbAux_stopAndWait _ 0, ?_, ?_, ?_⟩
  · simpa using writeStep_ok_run (r + 2) 0 0 0
  · simpa using readStep_ok_run (r + 2) 0 0
  · simpa using appendStep_ok_run (r + 2) 0 0
  · simp [happyPipelined, waitsBetweenSubs, wbAux]

theorem c2_witness :
    2 ≤ 2 ∧
    (sub_async_write_run okEnv 2 3 = some (0, 0, happyStopAndWait 2 0) ∧
     waitsBetweenSubs (happyStopAndWait 2 0) = true ∧
     sub_async_read_run okEnv 2 3 = some (0, 0, happyPipelined 2 0) ∧
     sub_async_append_run okEnv 2 3 = some (0, 0, happyPipelined 2 0) ∧
     waitsBetweenSubs (happyPipelined 2 0) = false) :=
  ⟨by decide, c2_write_waits_append_pipelines 2 (by decide)⟩

/-- C6: in the single-device drive loops (read, write, append), once a
completion with a non-zero status has been observed (`cb_args.ecount > 0`)
the loop guard fails: no further submission event occurs, the run's
remaining trace is exactly the final `xnvme_async_wait` that drains all
already-submitted in-flight requests (its drained errors still land in
`ecount`), and the run returns `-EIO`, a non-zero failure result. -/
theorem c6_completion_error_aborts (env : LoopEnv)
    (zcap fuel sect ecount a k w : Nat) (h : 0 < ecount) :
    readStep env zcap (fuel + 1) sect ecount a k =
      some (-cEio, ecount + env.waitDrain 0, [LoopEv.waitAll]) ∧
    writeStep env zcap (fuel + 1) sect ecount a k w =
      some (-cEio, ecount + env.waitDrain w, [LoopEv.waitAll]) ∧
    appendStep env zcap (fuel + 1) sect ecount a k =
      some (-cEio, ecount + env.waitDrain 0, [LoopEv.waitAll]) ∧
    (-cEio : Int) ≠ 0 := by
  have hng : ¬(sect < zcap ∧ ecount = 0) := by omega
  have hw0 : ¬(ecount + env.waitDrain 0 = 0) := by omega
  have hww : ¬(ecount + env.waitDrain w = 0) := by omega
  refine ⟨?_, ?_, ?_, by decide⟩
  · rw [readStep]; simp [hng, hw0]
  · rw [writeStep]; simp [hng, hww]
  · rw [appendStep]; simp [hng, hw0]

theorem c6_witness :
    0 < 1 ∧
    readStep okEnv 4 1 0 1 0 0 = some (-cEio, 1, [LoopEv.waitAll]) ∧
    writeStep okEnv 4 1 0 1 0 0 0 = some (-cEio, 1, [LoopEv.waitAll]) ∧
    appendStep okEnv 4 1 0 1 0 0 = some (-cEio, 1, [LoopEv.waitAll]) ∧
    (-cEio : Int) ≠ 0 := by
  have h := c6_completion_error_aborts okEnv 4 0 0 1 0 0 0 (by decide)
  exact ⟨by decide, h.1, h.2.1, h.2.2.1, h.2.2.2⟩

/-- Auxiliary for C7: no completed run of the read loop ever returns
`-EBUSY` or `-EAGAIN`: the busy branch always loops back to `submit`
instead of reaching an exit. -/
theorem readStep_never_busy (env : LoopEnv) (zcap : Nat) :
    ∀ fuel sect ecount a k v e tr,
      readStep env zcap fuel sect ecount a k = some (v, e, tr) →
      v ≠ -cEBUSY ∧ v ≠ -cEAGAIN := by
  intro fuel
  induction fuel with
  | zero =>
      intro sect ecount a k v e tr h
      simp [readStep] at h
  | succ fuel ih =>
      intro sect ecount a k v e tr h
      rw [readStep] at h
      split at h
      · split at h
        · obtain ⟨o, hrec, hf⟩ := Option.map_eq_some'.mp h
          obtain ⟨o1, o2, o3⟩ := o
          simp only [Prod.mk.injEq] at hf
          obtain ⟨rfl, -, -⟩ := hf
          exact ih _ _ _ _ _ _ _ hrec
        · split at h
          · obtain ⟨o, hrec, hf⟩ := Option.map_eq_some'.mp h
            obtain ⟨o1, o2, o3⟩ := o
            simp only [Prod.mk.injEq] at hf
            obtain ⟨rfl, -, -⟩ := hf
            exact ih _ _ _ _ _ _ _ hrec
          · rename_i hrb
            rw [not_or] at hrb
            simp only [Option.some.injEq, Prod.mk.injEq] at h
            obtain ⟨rfl, -, -⟩ := h
            constructor <;> split
            · exact hrb.1
            · decide
            · exact hrb.2
            · decide
      · simp only [Option.some.injEq, Prod.mk.injEq] at h
        obtain ⟨rfl, -, -⟩ := h
        constructor <;> split <;> decide

/-- C7: whenever a submission in the read loop returns `-EBUSY`/`-EAGAIN`,
the loop pokes the context and then retries exactly the same submission
(same sector, next attempt), with the error count touched only by the
completions the poke drained — and no completed run ever surfaces
`-EBUSY`/`-EAGAIN` as its result. -/
theorem c7_busy_pokes_then_retries (env : LoopEnv) (zcap fuel sect a k : Nat)
    (hs : sect < zcap)
    (hb : env.subRes a = -cEBUSY ∨ env.subRes a = -cEAGAIN) :
    readStep env zcap (fuel + 1) sect 0 a k =
      (readStep env zcap fuel sect (0 + env.pokeDrain k) (a + 1) (k + 1)).map
        (fun o => (o.1, o.2.1, LoopEv.sub sect :: LoopEv.poke :: o.2.2)) ∧
    (∀ fuel' sect' ecount' a' k' v e tr,
        readStep env zcap fuel' sect' ecount' a' k' = some (v, e, tr) →
        v ≠ -cEBUSY ∧ v ≠ -cEAGAIN) := by
  constructor
  · rcases hb with hb | hb <;>
      (rw [readStep]; simp [hs, hb, cEBUSY, cEAGAIN])
  · intro fuel' sect' ecount' a' k' v e tr h
    exact readStep_never_busy env zcap fuel' sect' ecount' a' k' v e tr h

theorem c7_witness :
    0 < 1 ∧
    (busyOnceEnv.subRes 0 = -cEBUSY ∨ busyOnceEnv.subRes 0 = -cEAGAIN) ∧
    readStep busyOnceEnv 1 3 0 0 0 0 =
      (readStep busyOnceEnv 1 2 0 (0 + busyOnceEnv.pokeDrain 0) 1 1).map
        (fun o => (o.1, o.2.1, LoopEv.sub 0 :: LoopEv.poke :: o.2.2)) := by
  have h := c7_busy_pokes_then_retries busyOnceEnv 1 2 0 0 0 (by decide)
    (Or.inl (by rfl))
  exact ⟨by decide, Or.inl (by rfl), h.1⟩

/-! ### getevents lemmas -/

/-- An inner-while pass that returns does so with at least `min`
completions, having poked its entry device first and the device that
crossed the threshold last. -/
theorem geInner_ret_properties (nfiles min : Nat) (oracle : Nat → PokeRes) :
    ∀ gas st c p tr, geInner nfiles min oracle gas st = .ret c p tr →
      min ≤ c ∧ tr.head? = some st.cur ∧ tr.getLast? = some p := by
  intro gas
  induction gas with
  | zero =>
      intro st c p tr h
      simp [geInner] at h
  | succ gas ih =>
      intro st c p tr h
      rw [geInner] at h
      split at h
      · simp at h
      · cases horacle : oracle st.k with
        | busy =>
            simp only [horacle] at h
            split at h
            · rename_i hmin
              simp only [GEInnerRes.ret.injEq] at h
              obtain ⟨rfl, rfl, rfl⟩ := h
              exact ⟨hmin, rfl, by simp⟩
            · simp at h
        | ok n =>
            simp only [horacle] at h
            split at h
            · rename_i hmin
              simp only [GEInnerRes.ret.injEq] at h
              obtain ⟨rfl, rfl, rfl⟩ := h
              exact ⟨hmin, rfl, by simp⟩
            · cases hrec : geInner nfiles min oracle gas
                  { cur := st.cur + 1, completed := st.completed + n,
                    k := st.k + 1, errNeg := false } with
              | ret c' p' tr' =>
                  rw [hrec] at h
                  simp only [GEInnerRes.ret.injEq] at h
                  obtain ⟨rfl, rfl, rfl⟩ := h
                  obtain ⟨h1, h2, h3⟩ := ih _ _ _ _ hrec
                  refine ⟨h1, rfl, ?_⟩
                  cases tr' with
                  | nil => simp at h2
                  | cons x xs => rw [List.getLast?_cons_cons]; exact h3
              | fall st' tr' =>
                  rw [hrec] at h
                  simp at h

/-- An inner-while pass entered with devices left and `err >= 0` pokes its
entry device first, whichever way the pass ends. -/
theorem geInner_polls_cur_first (nfiles min : Nat) (oracle : Nat → PokeRes)
    (gas : Nat) (st : GEState) (hg : 0 < gas) (he : st.errNeg = false) :
    (polledOf (geInner nfiles min oracle gas st)).head? = some st.cur := by
  obtain ⟨g, rfl⟩ : ∃ g, gas = g + 1 := ⟨gas - 1, by omega⟩
  rw [geInner, he]
  cases horacle : oracle st.k with
  | busy =>
      simp only [horacle, Bool.false_eq_true, if_false]
      split <;> simp [polledOf]
  | ok n =>
      simp only [horacle, Bool.false_eq_true, if_false]
      split
      · simp [polledOf]
      · cases geInner nfiles min oracle g
            { cur := st.cur + 1, completed := st.completed + n,
              k := st.k + 1, errNeg := false } <;>
          simp [polledOf]

/-- A returning `geOuter` run carries at least `min` completions and
records the last-poked device as the new `xd->prev`. -/
theorem geOuter_ret_properties (nfiles min : Nat) (oracle : Nat → PokeRes) :
    ∀ fuel fnull st c p tr,
      geOuter nfiles min oracle fuel fnull st = some (c, p, tr) →
      min ≤ c ∧ tr.getLast? = some p := by
  intro fuel
  induction fuel with
  | zero =>
      intro fnull st c p tr h
      simp [geOuter] at h
  | succ fuel ih =>
      intro fnull st c p tr h
      rw [geOuter] at h
      cases hinn : geInner nfiles min oracle
          (nfiles - (geReset nfiles fnull st).cur) (geReset nfiles fnull st) with
      | ret c' p' tr' =>
          rw [hinn] at h
          simp only [Option.some.injEq, Prod.mk.injEq] at h
          obtain ⟨rfl, rfl, rfl⟩ := h
          obtain ⟨h1, -, h3⟩ := geInner_ret_properties nfiles min oracle _ _ _ _ _ hinn
          exact ⟨h1, h3⟩
      | fall st' tr' =>
          rw [hinn] at h
          obtain ⟨o, hrec, hf⟩ := Option.map_eq_some'.mp h
          obtain ⟨c2, p2, tr2⟩ := o
          simp only [Prod.mk.injEq] at hf
          obtain ⟨rfl, rfl, rfl⟩ := hf
          obtain ⟨h1, h2⟩ := ih false st' _ _ _ hrec
          have hne : tr2 ≠ [] := by
            intro hnil
            rw [hnil] at h2
            simp at h2
          rw [List.getLast?_append_of_ne_nil _ hne]
          exact ⟨h1, h2⟩

/-- A returning `geOuter` run polls the revolution's start device first. -/
theorem geOuter_first_polled (nfiles min : Nat) (oracle : Nat → PokeRes)
    (fuel : Nat) (fnull : Bool) (st : GEState) (c p : Nat) (tr : List Nat)
    (hcur : (geReset nfiles fnull st).cur < nfiles)
    (he : (geReset nfiles fnull st).errNeg = false)
    (h : geOuter nfiles min oracle fuel fnull st = some (c, p, tr)) :
    tr.head? = some (geReset nfiles fnull st).cur := by
  cases fuel with
  | zero => simp [geOuter] at h
  | succ fuel =>
      rw [geOuter] at h
      have hg : 0 < nfiles - (geReset nfiles fnull st).cur := by omega
      have hhead := geInner_polls_cur_first nfiles min oracle
        (nfiles - (geReset nfiles fnull st).cur) (geReset nfiles fnull st) hg he
      cases hinn : geInner nfiles min oracle
          (nfiles - (geReset nfiles fnull st).cur) (geReset nfiles fnull st) with
      | ret c' p' tr' =>
          rw [hinn] at h hhead
          simp only [Option.some.injEq, Prod.mk.injEq] at h
          obtain ⟨rfl, rfl, rfl⟩ := h
          simpa [polledOf] using hhead
      | fall st' tr' =>
          rw [hinn] at h hhead
          obtain ⟨o, hrec, hf⟩ := Option.map_eq_some'.mp h
          obtain ⟨c2, p2, tr2⟩ := o
          simp only [Prod.mk.injEq] at hf
          obtain ⟨rfl, rfl, rfl⟩ := hf
          simp only [polledOf] at hhead
          cases tr' with
          | nil => simp at hhead
          | cons x xs => simpa using hhead

/-- Auxiliary for the C3 counterexample: with one device and every poke
draining nothing, the outer loop spins forever — for every fuel bound the
run is still unfinished. -/
theorem geOuter_zero_pokes_none :
    ∀ fuel k, geOuter 1 1 (fun _ => PokeRes.ok 0) fuel false
      { cur := 1, completed := 0, k := k, errNeg := false } = none := by
  intro fuel
  induction fuel with
  | zero => intro k; rfl
  | succ fuel ih =>
      intro k
      rw [geOuter]
      simp [geReset, geInner, ih (k + 1)]

/-- C3 counterexample: with one device, `min = 1` and every poke draining
no completions, `get_events` never returns for any number of loop
iterations — the claimed "full revolution with nothing left to poll" exit
does not exist (the only exit of the `for (;;)` loop is the
`completed >= min` check; the code after the loop is unreachable). -/
theorem c3_counterexample :
    ¬ ∃ fuel r, xnvme_fioe_getevents 1 1 (fun _ => PokeRes.ok 0) (-1) fuel =
      some r := by
  rintro ⟨fuel, r, h⟩
  rw [xnvme_fioe_getevents, if_neg (by simp)] at h
  cases fuel with
  | zero => simp [geOuter] at h
  | succ fuel =>
      rw [geOuter] at h
      simp [geReset, geInner, geOuter_zero_pokes_none fuel 1] at h

/-- C3 (amended): `get_events(min, max)` returns only once at least `min`
completions have been collected (the threshold is checked after every
poke); when the pokes never accumulate `min` completions the call does not
return — there is no "polled every device once with nothing outstanding"
exit. -/
theorem c3_returns_only_with_min (nfiles min fuel : Nat)
    (oracle : Nat → PokeRes) (prev : Int) (c p : Nat) (tr : List Nat)
    (hret : xnvme_fioe_getevents nfiles min oracle prev fuel = some (c, p, tr)) :
    min ≤ c := by
  rw [xnvme_fioe_getevents] at hret
  split at hret <;>
    exact (geOuter_ret_properties nfiles min oracle fuel _ _ _ _ _ hret).1

theorem c3_witness :
    xnvme_fioe_getevents 1 1 (fun _ => PokeRes.ok 1) (-1) 1 = some (1, 0, [0]) ∧
    1 ≤ 1 :=
  ⟨by rfl, c3_returns_only_with_min 1 1 1 (fun _ => PokeRes.ok 1) (-1) 1 0 [0]
    (by rfl)⟩

/-- C4: a `get_events` call that returns polled first the device
immediately after the device recorded by the previous call (`xd->prev`),
wrapping past the last device to device 0; it collected at least `min`
completions, and the device it records as the new `xd->prev` — next
call's start point — is the last device polled, the one whose poke
satisfied the `min` threshold. -/
theorem c4_round_robin_start (nfiles min fuel : Nat) (oracle : Nat → PokeRes)
    (prev : Int) (c p : Nat) (tr : List Nat)
    (hn : 0 < nfiles) (hp0 : 0 ≤ prev) (hp1 : prev < (nfiles : Int))
    (hret : xnvme_fioe_getevents nfiles min oracle prev fuel = some (c, p, tr)) :
    min ≤ c ∧
    tr.head? = some ((prev.toNat + 1) % nfiles) ∧
    tr.getLast? = some p := by
  rw [xnvme_fioe_getevents] at hret
  by_cases hcase : prev ≠ -1 ∧ prev + 1 < (nfiles : Int)
  · rw [if_pos hcase] at hret
    obtain ⟨h1, h3⟩ := geOuter_ret_properties nfiles min oracle fuel _ _ _ _ _ hret
    have htn : (prev + 1).toNat < nfiles := by omega
    have hr : geReset nfiles false
        { cur := (prev + 1).toNat, completed := 0, k := 0, errNeg := false } =
        { cur := (prev + 1).toNat, completed := 0, k := 0, errNeg := false } := by
      simp [geReset]
      omega
    have hhead := geOuter_first_polled nfiles min oracle fuel false
      { cur := (prev + 1).toNat, completed := 0, k := 0, errNeg := false }
      c p tr (by rw [hr]; exact htn) (by rw [hr]) hret
    rw [hr] at hhead
    have hmod : (prev.toNat + 1) % nfiles = (prev + 1).toNat := by
      have : prev.toNat + 1 = (prev + 1).toNat := by omega
      rw [this]
      exact Nat.mod_eq_of_lt htn
    rw [hmod]
    exact ⟨h1, hhead, h3⟩
  · rw [if_neg hcase] at hret
    obtain ⟨h1, h3⟩ := geOuter_ret_properties nfiles min oracle fuel _ _ _ _ _ hret
    have hr : geReset nfiles true
        { cur := 0, completed := 0, k := 0, errNeg := false } =
        { cur := 0, completed := 0, k := 0, errNeg := false } := by
      simp [geReset]
    have hhead := geOuter_first_polled nfiles min oracle fuel true
      { cur := 0, completed := 0, k := 0, errNeg := false }
      c p tr (by rw [hr]; exact hn) (by rw [hr]) hret
    rw [hr] at hhead
    have hwrap : prev + 1 = (nfiles : Int) := by
      rcases not_and_or.mp hcase with hne | hlt
      · exfalso; apply hne; omega
      · omega
    have hmod : (prev.toNat + 1) % nfiles = 0 := by
      have : prev.toNat + 1 = nfiles := by omega
      rw [this, Nat.mod_self]
    rw [hmod]
    exact ⟨h1, hhead, h3⟩

theorem c4_witness :
    0 < 3 ∧ (0 : Int) ≤ 0 ∧ (0 : Int) < (3 : Nat) ∧
    xnvme_fioe_getevents 3 1 (fun _ => PokeRes.ok 1) 0 5 = some (1, 1, [1]) ∧
    1 ≤ 1 ∧
    ([1] : List Nat).head? = some ((Int.toNat 0 + 1) % 3) ∧
    ([1] : List Nat).getLast? = some 1 := by
  refine ⟨by decide, by decide, by decide, by rfl, ?_⟩
  exact c4_round_robin_start 3 1 5 (fun _ => PokeRes.ok 1) 0 1 1 [1]
    (by decide) (by decide) (by decide) (by rfl)

/-! ### reset-write-pointer lemmas -/

theorem zseq_mem (nsect : Nat) :
    ∀ c z x, x ∈ zseq nsect c z ↔ ∃ i, i < c ∧ x = z + i * nsect := by
  intro c
  induction c with
  | zero =>
      intro z x
      simp [zseq]
  | succ c ih =>
      intro z x
      simp only [zseq, List.mem_cons, ih]
      constructor
      · rintro (rfl | ⟨i, hi, rfl⟩)
        · exact ⟨0, by omega, by omega⟩
        · exact ⟨i + 1, by omega, by rw [Nat.succ_mul]; omega⟩
      · rintro ⟨i, hi, rfl⟩
        cases i with
        | zero => left; omega
        | succ i => right; exact ⟨i, by omega, by rw [Nat.succ_mul]; omega⟩

theorem zseq_ascending (nsect : Nat) (hn : 0 < nsect) :
    ∀ c z, List.Chain' (· < ·) (zseq nsect c z) := by
  intro c
  induction c with
  | zero =>
      intro z
      simp [zseq]
  | succ c ih =>
      intro z
      rw [zseq, List.chain'_cons']
      refine ⟨?_, ih (z + nsect)⟩
      intro y hy
      cases c with
      | zero => simp [zseq] at hy
      | succ c =>
          simp only [zseq, List.head?_cons, Option.mem_def, Option.some.injEq] at hy
          omega

/-- Behaviour of the unrolled reset loop: on full success it visits the
whole sequence; on failure it stops at the first failing zone, having
issued commands exactly to the preceding zones and that zone. -/
theorem reset_loop_spec (nsect : Nat) (mgmt : Nat → Int) :
    ∀ c z e zs, reset_loop nsect mgmt c z = (e, zs) →
      (e = 0 → zs = zseq nsect c z ∧ ∀ w ∈ zs, mgmt w = 0) ∧
      (e ≠ 0 → ∃ j, j < c ∧ zs = zseq nsect (j + 1) z ∧
        mgmt (z + j * nsect) = e ∧ ∀ i < j, mgmt (z + i * nsect) = 0) := by
  intro c
  induction c with
  | zero =>
      intro z e zs h
      simp only [reset_loop, Prod.mk.injEq] at h
      obtain ⟨rfl, rfl⟩ := h
      exact ⟨fun _ => ⟨rfl, by simp⟩, fun hne => absurd rfl hne⟩
  | succ c ih =>
      intro z e zs h
      rw [reset_loop] at h
      split at h
      · rename_i hmz
        simp only [Prod.mk.injEq] at h
        obtain ⟨rfl, rfl⟩ := h
        refine ⟨fun h0 => absurd h0 hmz, fun _ => ⟨0, by omega, ?_, ?_, ?_⟩⟩
        · simp [zseq]
        · simp
        · intro i hi
          omega
      · rename_i hmz
        have hmz0 : mgmt z = 0 := not_not.mp hmz
        cases hrec : reset_loop nsect mgmt c (z + nsect) with
        | mk e' zs' =>
            rw [hrec] at h
            simp only [Prod.mk.injEq] at h
            obtain ⟨rfl, rfl⟩ := h
            obtain ⟨hok, hfail⟩ := ih (z + nsect) e' zs' hrec
            constructor
            · intro h0
              obtain ⟨rfl, hall⟩ := hok h0
              refine ⟨by simp [zseq], ?_⟩
              intro w hw
              rcases List.mem_cons.mp hw with rfl | hw'
              · exact hmz0
              · exact hall w hw'
            · intro hne
              obtain ⟨j, hj, rfl, hje, hprev⟩ := hfail hne
              have harith : ∀ i : Nat, z + (i + 1) * nsect = (z + nsect) + i * nsect := by
                intro i
                rw [Nat.succ_mul]
                omega
              refine ⟨j + 1, by omega, by simp [zseq], ?_, ?_⟩
              · rw [harith j]
                exact hje
              · intro i hi
                cases i with
                | zero => simpa using hmz0
                | succ i =>
                    rw [harith i]
                    exact hprev i (by omega)

/-- The zones the reset loop visits are exactly the zone-start multiples of
`nsect` whose zone overlaps the closed byte range `[offset, offset+length]`
— equivalently, all zones from `align_down(offset)` to
`align_down(offset+length)` inclusive. -/
theorem reset_range_mem (ssw nsect offset length : Nat) (hn : 0 < nsect)
    (x : Nat) :
    x ∈ zseq nsect
        ((reset_last ssw nsect offset length - reset_first ssw nsect offset) / nsect + 1)
        (reset_first ssw nsect offset) ↔
      nsect ∣ x ∧ offset < (x + nsect) <<< ssw ∧ x <<< ssw ≤ offset + length := by
  have hp : 0 < 2 ^ ssw := Nat.two_pow_pos ssw
  have hshr : ∀ a : Nat, a >>> ssw = a / 2 ^ ssw := fun a => Nat.shiftRight_eq_div_pow a ssw
  have hshl : ∀ a : Nat, a <<< ssw = a * 2 ^ ssw := fun a => Nat.shiftLeft_eq a ssw
  have hot : offset >>> ssw ≤ (offset + length) >>> ssw := by
    rw [hshr, hshr]
    exact Nat.div_le_div_right (by omega)
  have hFL : (offset >>> ssw) / nsect ≤ ((offset + length) >>> ssw) / nsect :=
    Nat.div_le_div_right hot
  have hcount : (reset_last ssw nsect offset length - reset_first ssw nsect offset) / nsect + 1
      = (((offset + length) >>> ssw) / nsect - (offset >>> ssw) / nsect) + 1 := by
    rw [reset_last, reset_first, ← Nat.sub_mul, Nat.mul_div_cancel _ hn]
  rw [hcount, reset_first, zseq_mem]
  constructor
  · rintro ⟨i, hi, rfl⟩
    refine ⟨⟨(offset >>> ssw) / nsect + i, by ring⟩, ?_, ?_⟩
    · rw [hshl]
      have h1 : offset / 2 ^ ssw < ((offset >>> ssw) / nsect + i + 1) * nsect := by
        rw [← hshr]
        exact (Nat.div_lt_iff_lt_mul hn).mp (by omega)
      have h2 : offset < (((offset >>> ssw) / nsect + i + 1) * nsect) * 2 ^ ssw :=
        (Nat.div_lt_iff_lt_mul hp).mp h1
      calc offset < (((offset >>> ssw) / nsect + i + 1) * nsect) * 2 ^ ssw := h2
        _ = ((offset >>> ssw) / nsect * nsect + i * nsect + nsect) * 2 ^ ssw := by ring
    · rw [hshl]
      have h1 : (offset >>> ssw) / nsect + i ≤ ((offset + length) >>> ssw) / nsect := by
        omega
      have h2 : ((offset >>> ssw) / nsect + i) * nsect ≤ (offset + length) / 2 ^ ssw := by
        rw [← hshr]
        exact (Nat.le_div_iff_mul_le hn).mp h1
      have h3 : (((offset >>> ssw) / nsect + i) * nsect) * 2 ^ ssw ≤ offset + length :=
        (Nat.le_div_iff_mul_le hp).mp h2
      calc ((offset >>> ssw) / nsect * nsect + i * nsect) * 2 ^ ssw
          = (((offset >>> ssw) / nsect + i) * nsect) * 2 ^ ssw := by ring
        _ ≤ offset + length := h3
  · rintro ⟨⟨m, rfl⟩, hlow, hup⟩
    rw [hshl] at hlow hup
    have hlow2 : offset >>> ssw < (m + 1) * nsect := by
      rw [hshr]
      refine (Nat.div_lt_iff_lt_mul hp).mpr ?_
      calc offset < (nsect * m + nsect) * 2 ^ ssw := hlow
        _ = ((m + 1) * nsect) * 2 ^ ssw := by ring
    have hF : (offset >>> ssw) / nsect ≤ m := by
      have := (Nat.div_lt_iff_lt_mul hn).mpr hlow2
      omega
    have hup2 : m * nsect ≤ (offset + length) >>> ssw := by
      rw [hshr]
      refine (Nat.le_div_iff_mul_le hp).mpr ?_
      calc (m * nsect) * 2 ^ ssw = nsect * m * 2 ^ ssw := by ring
        _ ≤ offset + length := hup
    have hL : m ≤ ((offset + length) >>> ssw) / nsect :=
      (Nat.le_div_iff_mul_le hn).mpr hup2
    refine ⟨m - (offset >>> ssw) / nsect, by omega, ?_⟩
    have hsplit : (offset >>> ssw) / nsect + (m - (offset >>> ssw) / nsect) = m := by
      omega
    calc nsect * m = ((offset >>> ssw) / nsect + (m - (offset >>> ssw) / nsect)) * nsect := by
          rw [hsplit]; ring
      _ = (offset >>> ssw) / nsect * nsect + (m - (offset >>> ssw) / nsect) * nsect := by
          ring

/-- C5 counterexample: with 512-byte sectors (`ssw = 9`) and 8-sector
zones, resetting the byte range `[0, 4096)` — exactly zone 0 — issues
reset commands to zones 0 *and* 8, although zone 8 (bytes 4096..8191)
does not overlap the half-open range `[0, 4096)`: the loop's `zslba <=
last` bound includes the zone that starts exactly at `offset + length`. -/
theorem c5_counterexample :
    xnvme_fioe_reset_wp 9 8 0 4096 (fun _ => 0) = (0, [0, 8]) ∧
    ¬ zone_overlaps_ho 9 8 0 4096 8 := by
  constructor
  · rfl
  · decide

/-- C5 (amended): `reset_write_pointer(offset, length)` issues exactly one
synchronous reset command per zone overlapping the *closed* byte range
`[offset, offset+length]` — all zones from `align_down(offset)` to
`align_down(offset+length)` inclusive, so a zone-aligned range end resets
one zone beyond the half-open range — visited in ascending zone order, and
at the first zone whose reset fails it stops and returns that failure
without attempting any subsequent zone. -/
theorem c5_reset_wp_closed_range (ssw nsect offset length : Nat)
    (mgmt : Nat → Int) (e : Int) (zs : List Nat) (hn : 0 < nsect)
    (hrun : xnvme_fioe_reset_wp ssw nsect offset length mgmt = (e, zs)) :
    List.Chain' (· < ·) zs ∧
    (e = 0 →
      (∀ x, x ∈ zs ↔ nsect ∣ x ∧ offset < (x + nsect) <<< ssw ∧
        x <<< ssw ≤ offset + length) ∧
      ∀ w ∈ zs, mgmt w = 0) ∧
    (e ≠ 0 → ∃ j,
      zs = zseq nsect (j + 1) (reset_first ssw nsect offset) ∧
      mgmt (reset_first ssw nsect offset + j * nsect) = e ∧
      ∀ i < j, mgmt (reset_first ssw nsect offset + i * nsect) = 0) := by
  rw [xnvme_fioe_reset_wp] at hrun
  obtain ⟨hok, hfail⟩ := reset_loop_spec nsect mgmt _ _ _ _ hrun
  refine ⟨?_, ?_, ?_⟩
  · rcases eq_or_ne e 0 with h0 | hne
    · obtain ⟨rfl, -⟩ := hok h0
      exact zseq_ascending nsect hn _ _
    · obtain ⟨j, -, rfl, -, -⟩ := hfail hne
      exact zseq_ascending nsect hn _ _
  · intro h0
    obtain ⟨rfl, hall⟩ := hok h0
    exact ⟨fun x => reset_range_mem ssw nsect offset length hn x, hall⟩
  · intro hne
    obtain ⟨j, -, rfl, hje, hprev⟩ := hfail hne
    exact ⟨j, rfl, hje, hprev⟩

theorem c5_witness :
    0 < 8 ∧
    xnvme_fioe_reset_wp 9 8 0 4096 (fun z => if z = 8 then -cEio else 0) =
      (-cEio, [0, 8]) ∧
    List.Chain' (· < ·) [0, 8] ∧
    ((-cEio : Int) ≠ 0 → ∃ j,
      ([0, 8] : List Nat) = zseq 8 (j + 1) (reset_first 9 8 0) ∧
      (fun z => if z = 8 then -cEio else (0 : Int)) (reset_first 9 8 0 + j * 8) = -cEio ∧
      ∀ i < j, (fun z => if z = 8 then -cEio else (0 : Int)) (reset_first 9 8 0 + i * 8) = 0) := by
  refine ⟨by decide, by rfl, ?_, ?_⟩
  · exact (c5_reset_wp_closed_range 9 8 0 4096 (fun z => if z = 8 then -cEio else 0)
      (-cEio) [0, 8] (by decide) (by rfl)).1
  · exact (c5_reset_wp_closed_range 9 8 0 4096 (fun z => if z = 8 then -cEio else 0)
      (-cEio) [0, 8] (by decide) (by rfl)).2.2

end Xnvme
